import Mathlib

/-!
Verification of the client-side session lifecycle and local abuse-mitigation
layer: a shallow embedding of the rate limiter, the session timeout manager,
the secure-random hex generator, the password strength scorer and the email
validator, together with theorems about their behaviour.
-/

set_option linter.unusedVariables false

namespace RateLimiter

/-- Per-identifier attempt record: `{ count, resetTime }` as stored in the
limiter's `attempts` map. Times are Unix milliseconds. -/
structure AttemptRecord where
  count : Nat
  resetTime : Nat
deriving DecidableEq

/-- Configuration of one `RateLimiter` instance: `maxAttempts` and
`windowMs` from the constructor. -/
structure Config where
  maxAttempts : Nat
  windowMs : Nat
deriving DecidableEq

/-- The limiter's `attempts` map, keyed by identifier string. -/
def Map : Type := String → Option AttemptRecord

/-- Point update of the attempts map (models `Map.set` / `Map.delete`). -/
def Map.set (m : Map) (k : String) (v : Option AttemptRecord) : Map :=
  fun q => if q = k then v else m q

/-- The freshly constructed limiter has an empty attempts map. -/
def Map.empty : Map := fun _ => none

/-- Shallow embedding of `RateLimiter.isAllowed(identifier)`: the current
time `now` (`Date.now()`) is an explicit argument and the updated `attempts`
map is returned alongside the boolean result. -/
def isAllowed (cfg : Config) (s : Map) (identifier : String) (now : Nat) :
    Bool × Map :=
  match s identifier with
  | none => (true, s.set identifier (some ⟨1, now + cfg.windowMs⟩))
  | some record =>
    if now > record.resetTime then
      (true, s.set identifier (some ⟨1, now + cfg.windowMs⟩))
    else if record.count ≥ cfg.maxAttempts then
      (false, s)
    else
      (true, s.set identifier (some ⟨record.count + 1, record.resetTime⟩))

/-- Shallow embedding of `RateLimiter.getRemainingTime(identifier)`:
`Math.max(0, Math.ceil((resetTime - now) / 1000))`, with the truncated
natural subtraction capturing the `max(0, ·)` clamp. -/
def getRemainingTime (s : Map) (identifier : String) (now : Nat) : Nat :=
  match s identifier with
  | none => 0
  | some record => (record.resetTime - now + 999) / 1000

/-- Shallow embedding of `RateLimiter.reset(identifier)`:
`this.attempts.delete(identifier)`. -/
def reset (s : Map) (identifier : String) : Map :=
  Map.set s identifier none

/-- Runs a list of `isAllowed` calls for one identifier at the given times,
collecting the boolean results and the final map. -/
def allowRun (cfg : Config) (s : Map) (identifier : String) :
    List Nat → List Bool × Map
  | [] => ([], s)
  | t :: ts =>
    let (b, s1) := isAllowed cfg s identifier t
    let (bs, s2) := allowRun cfg s1 identifier ts
    (b :: bs, s2)

/-- One observable operation on a limiter instance. `getRemainingTime` only
reads the map, so it leaves the state unchanged. -/
inductive Op where
  | allowCall (identifier : String) (now : Nat)
  | remainingCall (identifier : String) (now : Nat)
  | resetCall (identifier : String)

/-- State effect of a single operation. -/
def applyOp (cfg : Config) (s : Map) : Op → Map
  | .allowCall identifier now => (isAllowed cfg s identifier now).2
  | .remainingCall _ _ => s
  | .resetCall identifier => reset s identifier

/-- State after a sequence of operations on a limiter. -/
def runOps (cfg : Config) (s : Map) (ops : List Op) : Map :=
  ops.foldl (applyOp cfg) s

/-- Every record stored in the map has `count ≤ maxAttempts`. -/
def CountBounded (cfg : Config) (s : Map) : Prop :=
  ∀ identifier r, s identifier = some r → r.count ≤ cfg.maxAttempts

end RateLimiter

namespace SessionManagerModel

/-- Action attached to a scheduled timer: the body of the warning callback
(`this.onWarning?.()`) or of the hard-timeout callback (`this.onTimeout?.()`). -/
inductive TimerAction where
  | warning
  | hardTimeout
deriving DecidableEq

/-- One pending one-shot timer in the host environment. -/
structure PendingTimer where
  id : Nat
  fireAt : Nat
  action : TimerAction
deriving DecidableEq

/-- The host timer environment: the next fresh timer id (browsers hand out
positive ids) and the set of currently pending timers. -/
structure TimerEnv where
  nextId : Nat
  pending : List PendingTimer
deriving DecidableEq

/-- A fresh environment with no pending timers. -/
def TimerEnv.initial : TimerEnv := ⟨1, []⟩

/-- Models `setTimeout(action, delay)` called at time `now`: allocates a
fresh id and registers a one-shot timer firing at `now + delay`. -/
def setTimeoutAt (env : TimerEnv) (now delay : Nat) (action : TimerAction) :
    Nat × TimerEnv :=
  (env.nextId, ⟨env.nextId + 1, env.pending ++ [⟨env.nextId, now + delay, action⟩]⟩)

/-- Models `clearTimeout(id)`: removes the pending timer with that id. -/
def clearTimeoutId (env : TimerEnv) (id : Nat) : TimerEnv :=
  ⟨env.nextId, env.pending.filter (fun t => t.id ≠ id)⟩

/-- Observable callback invocations. -/
inductive FireEvent where
  | warningCalled
  | timeoutCalled
deriving DecidableEq

/-- Hard-timeout delay: `TIMEOUT_DURATION = 30 * 60 * 1000` (30 minutes). -/
def TIMEOUT_DURATION : Nat := 30 * 60 * 1000

/-- Warning delay: `WARNING_DURATION = 25 * 60 * 1000` (25 minutes). -/
def WARNING_DURATION : Nat := 25 * 60 * 1000

/-- The `SessionManager` instance fields that change over its lifetime:
the two timer handles. -/
structure SessionManager where
  timeoutId : Option Nat
  warningTimeoutId : Option Nat
deriving DecidableEq

/-- A freshly constructed manager: both handles null. -/
def SessionManager.new : SessionManager := ⟨none, none⟩

/-- Shallow embedding of `SessionManager.clear()`: cancel each timer whose
handle is set, then null the handle. -/
def SessionManager.clear : SessionManager × TimerEnv → SessionManager × TimerEnv
  | (sm, env) =>
    let env1 := match sm.timeoutId with
      | some i => clearTimeoutId env i
      | none => env
    let env2 := match sm.warningTimeoutId with
      | some i => clearTimeoutId env1 i
      | none => env1
    (⟨none, none⟩, env2)

/-- Shallow embedding of `SessionManager.reset()` called at time `now`:
clear, then schedule the warning timer and the hard timer. -/
def SessionManager.reset (x : SessionManager × TimerEnv) (now : Nat) :
    SessionManager × TimerEnv :=
  let (sm, env) := SessionManager.clear x
  let (wid, env1) := setTimeoutAt env now WARNING_DURATION .warning
  let (tid, env2) := setTimeoutAt env1 now TIMEOUT_DURATION .hardTimeout
  (⟨some tid, some wid⟩, env2)

/-- Shallow embedding of `SessionManager.start()`: `this.reset()`. -/
def SessionManager.start (x : SessionManager × TimerEnv) (now : Nat) :
    SessionManager × TimerEnv :=
  SessionManager.reset x now

/-- The host fires the pending timer with the given id: the timer is removed
from the pending set (one-shot) and its scheduled callback body runs. Per
the source, the warning body only calls `onWarning?.()` and the hard body
only calls `onTimeout?.()`; neither touches the manager's fields. -/
def fireTimer (sm : SessionManager) (env : TimerEnv) (id : Nat) :
    SessionManager × TimerEnv × List FireEvent :=
  match env.pending.find? (fun t => t.id == id) with
  | none => (sm, env, [])
  | some t =>
    let env1 : TimerEnv := ⟨env.nextId, env.pending.filter (fun u => u.id ≠ id)⟩
    match t.action with
    | .warning => (sm, env1, [.warningCalled])
    | .hardTimeout => (sm, env1, [.timeoutCalled])

/-- The manager owns every pending timer: each pending timer's id is one of
the manager's two handles. This holds for every state reachable through the
manager's own operations, which are the environment's only mutators. -/
def OwnsPending (sm : SessionManager) (env : TimerEnv) : Prop :=
  ∀ t ∈ env.pending, sm.timeoutId = some t.id ∨ sm.warningTimeoutId = some t.id

end SessionManagerModel

namespace SecurityUtils

/-- One hex byte as produced by `byte.toString(16).padStart(2, '0')`:
`Nat.toDigits 16` matches JavaScript `toString(16)` on naturals (lowercase
digits, no leading zeros, "0" for 0). -/
def jsHexByte (b : Nat) : List Char :=
  List.replicate (2 - (Nat.toDigits 16 b).length) '0' ++ Nat.toDigits 16 b

/-- Shallow embedding of `generateSecureRandom(length)`: the random draw
`crypto.getRandomValues` is modelled by passing the drawn bytes explicitly
(a `Uint8Array(length)` holds `length` values below 256); the function body
is `Array.from(array, byte => byte.toString(16).padStart(2, '0')).join('')`. -/
def generateSecureRandom (bytes : List Nat) : String :=
  ⟨(bytes.map jsHexByte).flatten⟩

/-- A lowercase hexadecimal digit. -/
def isLowerHexDigit (c : Char) : Bool :=
  c.isDigit || ('a' ≤ c && c ≤ 'f')

end SecurityUtils

namespace Validation

/-- Character class of the special-character regex
`[!@#$%^&*()_+\-=\[\]{};':"\\|,.<>\/?]` in `getPasswordStrength`. -/
def specialChars : List Char :=
  ['!', '@', '#', '$', '%', '^', '&', '*', '(', ')', '_', '+', '-', '=',
   '[', ']', '\x7b', '\x7d', ';', Char.ofNat 39, ':', Char.ofNat 34,
   Char.ofNat 92, '|', ',', '.', '<', '>', '/', '?']

/-- Test of `/[a-z]/`. -/
def hasLower (p : List Char) : Bool := p.any fun c => 'a' ≤ c && c ≤ 'z'

/-- Test of `/[A-Z]/`. -/
def hasUpper (p : List Char) : Bool := p.any fun c => 'A' ≤ c && c ≤ 'Z'

/-- Test of `/\d/`. -/
def hasDigit (p : List Char) : Bool := p.any fun c => '0' ≤ c && c ≤ '9'

/-- Test of the special-character regex. -/
def hasSpecial (p : List Char) : Bool := p.any fun c => specialChars.contains c

/-- Shallow embedding of `getPasswordStrength(password)`: sequentially adds
one point per satisfied criterion and pushes a feedback message per missed
one, then adds the length-12 bonus point. Returns `(score, feedback)`. -/
def getPasswordStrength (password : String) : Nat × List String :=
  let p := password.toList
  let score0 : Nat := 0
  let feedback0 : List String := []
  let score1 := if p.length ≥ 8 then score0 + 1 else score0
  let feedback1 := if p.length ≥ 8 then feedback0 else feedback0 ++ ["Use at least 8 characters"]
  let score2 := if hasLower p then score1 + 1 else score1
  let feedback2 := if hasLower p then feedback1 else feedback1 ++ ["Add lowercase letters"]
  let score3 := if hasUpper p then score2 + 1 else score2
  let feedback3 := if hasUpper p then feedback2 else feedback2 ++ ["Add uppercase letters"]
  let score4 := if hasDigit p then score3 + 1 else score3
  let feedback4 := if hasDigit p then feedback3 else feedback3 ++ ["Add numbers"]
  let score5 := if hasSpecial p then score4 + 1 else score4
  let feedback5 := if hasSpecial p then feedback4 else feedback4 ++ ["Add special characters"]
  let score6 := if p.length ≥ 12 then score5 + 1 else score5
  (score6, feedback5)

/-- Character class `[a-zA-Z0-9._%+-]` of the email regex local part. -/
def isLocalChar (c : Char) : Bool :=
  c.isAlpha || c.isDigit || c = '.' || c = '_' || c = '%' || c = '+' || c = '-'

/-- Character class `[a-zA-Z0-9.-]` of the email regex domain part. -/
def isDomainChar (c : Char) : Bool :=
  c.isAlpha || c.isDigit || c = '.' || c = '-'

/-- Matches `[a-zA-Z0-9.-]+\.[a-zA-Z]{2,}$` against `r`: some split point
`j` carries a nonempty domain prefix, a dot, and an alphabetic tail of
length at least 2 reaching the end. -/
def domainTailMatch (r : List Char) : Bool :=
  (List.range r.length).any fun j =>
    decide (0 < j) && (r.take j).all isDomainChar && (r.get? j == some '.') &&
      decide (2 ≤ (r.drop (j + 1)).length) && (r.drop (j + 1)).all isWestern
where
  /-- Character class `[a-zA-Z]` of the top-level-domain part. -/
  isWestern (c : Char) : Bool := c.isAlpha

/-- Matches the full anchored regex
`^[a-zA-Z0-9._%+-]+@[a-zA-Z0-9.-]+\.[a-zA-Z]{2,}$` against `s`: some
position `i` carries a nonempty local-part prefix, an `@`, and a matching
domain tail. -/
def emailRegexTest (s : List Char) : Bool :=
  (List.range s.length).any fun i =>
    decide (0 < i) && (s.take i).all isLocalChar && (s.get? i == some '@') &&
      domainTailMatch (s.drop (i + 1))

/-- Shallow embedding of `isValidEmail(email)`:
`emailRegex.test(email) && email.length <= 254`. -/
def isValidEmail (email : String) : Bool :=
  emailRegexTest email.toList && decide (email.length ≤ 254)

/-- Declarative reading of the email regex: the string decomposes as
`local ++ "@" ++ domain ++ "." ++ tld` with nonempty local and domain parts
drawn from their character classes and an alphabetic tld of length ≥ 2. -/
def EmailRegexSpec (s : List Char) : Prop :=
  ∃ l d t : List Char,
    s = l ++ '@' :: (d ++ '.' :: t) ∧
    l ≠ [] ∧ (∀ c ∈ l, isLocalChar c = true) ∧
    d ≠ [] ∧ (∀ c ∈ d, isDomainChar c = true) ∧
    2 ≤ t.length ∧ (∀ c ∈ t, c.isAlpha = true)

end Validation

namespace RateLimiter

theorem map_set_same (m : Map) (k : String) (v : Option AttemptRecord) :
    Map.set m k v k = v := by
  simp [Map.set]

theorem allowRun_within_window (cfg : Config) (identifier : String) (r : Nat) :
    ∀ (ts : List Nat) (s : Map) (c : Nat),
      s identifier = some ⟨c, r⟩ →
      (∀ t ∈ ts, t ≤ r) →
      (allowRun cfg s identifier ts).1 =
        (List.range ts.length).map (fun i => decide (c + i < cfg.maxAttempts))
  | [], s, c, hrec, hts => by simp [allowRun]
  | t :: ts, s, c, hrec, hts => by
    have hle : t ≤ r := hts t (List.mem_cons_self t ts)
    have hnot : ¬ t > r := by omega
    by_cases hc : c ≥ cfg.maxAttempts
    · have h1 : isAllowed cfg s identifier t = (false, s) := by
        unfold isAllowed
        rw [hrec]
        simp [hnot, hc]
      have ih := allowRun_within_window cfg identifier r ts s c hrec
        (fun u hu => hts u (List.mem_cons_of_mem t hu))
      simp only [allowRun, h1, ih, List.length_cons, List.range_succ_eq_map,
        List.map_cons, List.map_map]
      congr 1
      · have hd : decide (c + 0 < cfg.maxAttempts) = false := by simp; omega
        rw [hd]
      · apply List.map_congr_left
        intro i hi
        simp only [Function.comp_apply]
        exact decide_eq_decide.mpr (by omega)
    · push_neg at hc
      have h1 : isAllowed cfg s identifier t =
          (true, s.set identifier (some ⟨c + 1, r⟩)) := by
        unfold isAllowed
        rw [hrec]
        simp [hnot]
        omega
      have hrec2 : Map.set s identifier (some ⟨c + 1, r⟩) identifier =
          some ⟨c + 1, r⟩ := map_set_same ..
      have ih := allowRun_within_window cfg identifier r ts _ (c + 1) hrec2
        (fun u hu => hts u (List.mem_cons_of_mem t hu))
      simp only [allowRun, h1, ih, List.length_cons, List.range_succ_eq_map,
        List.map_cons, List.map_map]
      congr 1
      · have hd : decide (c + 0 < cfg.maxAttempts) = true := by simp; omega
        rw [hd]
      · apply List.map_congr_left
        intro i hi
        simp only [Function.comp_apply]
        exact decide_eq_decide.mpr (by omega)

/-- C1 (amended): starting from no record, a run of `isAllowed` calls whose
later call times stay within the first call's window returns `true` for the
first `maxAttempts` calls and `false` from the `(maxAttempts + 1)`-th call
on: the k-th call (0-based index k) succeeds exactly when `k < maxAttempts`. -/
theorem isAllowed_window_boundary (cfg : Config) (identifier : String)
    (t0 : Nat) (ts : List Nat) (hmax : 1 ≤ cfg.maxAttempts)
    (hts : ∀ t ∈ ts, t ≤ t0 + cfg.windowMs) :
    (allowRun cfg Map.empty identifier (t0 :: ts)).1 =
      (List.range (ts.length + 1)).map (fun k => decide (k < cfg.maxAttempts)) := by
  have h1 : isAllowed cfg Map.empty identifier t0 =
      (true, Map.set Map.empty identifier (some ⟨1, t0 + cfg.windowMs⟩)) := by
    unfold isAllowed
    rfl
  have hrec : Map.set Map.empty identifier (some ⟨1, t0 + cfg.windowMs⟩) identifier =
      some ⟨1, t0 + cfg.windowMs⟩ := map_set_same ..
  have ih := allowRun_within_window cfg identifier (t0 + cfg.windowMs) ts _ 1 hrec hts
  simp only [allowRun, h1, ih, List.range_succ_eq_map, List.map_cons, List.map_map]
  congr 1
  · have hd : decide (0 < cfg.maxAttempts) = true := by simp; omega
    rw [hd]
  · apply List.map_congr_left
    intro i hi
    simp only [Function.comp_apply]
    exact decide_eq_decide.mpr (by omega)

/-- C1 (witness): with `maxAttempts = 2`, three calls in one window give
`[true, true, false]`. -/
theorem isAllowed_window_boundary_witness :
    (allowRun ⟨2, 1000⟩ Map.empty "d" [0, 0, 0]).1 = [true, true, false] := by
  have h := isAllowed_window_boundary ⟨2, 1000⟩ "d" 0 [0, 0] (by decide) (by decide)
  rw [h]
  decide

/-- C1 (counterexample): with the authentication configuration
`maxAttempts = 5`, the 5th call within the window is still allowed (all five
calls return `true`), contradicting the claim that the `maxAttempts`-th call
returns `false`; the 5th call moreover increments the stored count to 5. -/
theorem isAllowed_fifth_call_allowed :
    (allowRun ⟨5, 900000⟩ Map.empty "device" [0, 0, 0, 0, 0]).1 =
      [true, true, true, true, true] ∧
    (allowRun ⟨5, 900000⟩ Map.empty "device" [0, 0, 0, 0, 0]).2 "device" =
      some ⟨5, 900000⟩ := by
  constructor <;> decide

end RateLimiter

namespace RateLimiter

/-- C3: whatever record an identifier currently has, once the current time
is strictly past its `resetTime`, the next `isAllowed` call returns `true`
and overwrites the record with `count = 1` and `resetTime = now + windowMs`. -/
theorem isAllowed_after_window (cfg : Config) (s : Map) (identifier : String)
    (now : Nat) (r : AttemptRecord) (hrec : s identifier = some r)
    (hpast : r.resetTime < now) :
    (isAllowed cfg s identifier now).1 = true ∧
    (isAllowed cfg s identifier now).2 identifier =
      some ⟨1, now + cfg.windowMs⟩ := by
  unfold isAllowed
  rw [hrec]
  have hgt : now > r.resetTime := hpast
  simp [hgt, Map.set]

/-- C3 (witness): a record with `count = 3` whose window ended at time 100
is overwritten by a call at time 101. -/
theorem isAllowed_after_window_witness :
    (isAllowed ⟨5, 900000⟩ (Map.set Map.empty "d" (some ⟨3, 100⟩)) "d" 101).1 = true ∧
    (isAllowed ⟨5, 900000⟩ (Map.set Map.empty "d" (some ⟨3, 100⟩)) "d" 101).2 "d" =
      some ⟨1, 101 + 900000⟩ :=
  isAllowed_after_window ⟨5, 900000⟩ (Map.set Map.empty "d" (some ⟨3, 100⟩))
    "d" 101 ⟨3, 100⟩ (by decide) (by decide)

/-- C4: after `reset(identifier)`, the next `isAllowed(identifier)` call
behaves as on a state with no record for that identifier — it returns `true`
and installs a fresh record with `count = 1` — and
`getRemainingTime(identifier)` returns 0. -/
theorem reset_clears_identifier (cfg : Config) (s : Map) (identifier : String)
    (now : Nat) :
    (isAllowed cfg (reset s identifier) identifier now).1 = true ∧
    (isAllowed cfg (reset s identifier) identifier now).2 identifier =
      some ⟨1, now + cfg.windowMs⟩ ∧
    getRemainingTime (reset s identifier) identifier now = 0 := by
  have hnone : reset s identifier identifier = none := by
    simp [reset, Map.set]
  constructor
  · unfold isAllowed
    rw [hnone]
  constructor
  · unfold isAllowed
    rw [hnone]
    simp [Map.set]
  · unfold getRemainingTime
    rw [hnone]

theorem isAllowed_snd_lookup (cfg : Config) (s : Map) (identifier : String)
    (now : Nat) (q : String) :
    (isAllowed cfg s identifier now).2 q = s q ∨
    (isAllowed cfg s identifier now).2 q = some ⟨1, now + cfg.windowMs⟩ ∨
    ∃ rec0, s identifier = some rec0 ∧ rec0.count < cfg.maxAttempts ∧
      (isAllowed cfg s identifier now).2 q = some ⟨rec0.count + 1, rec0.resetTime⟩ := by
  unfold isAllowed
  cases hrec : s identifier with
  | none =>
    by_cases hqi : q = identifier
    · right; left; simp [Map.set, hqi]
    · left; simp [Map.set, hqi]
  | some rec0 =>
    by_cases hpast : now > rec0.resetTime
    · by_cases hqi : q = identifier
      · right; left; simp [hpast, Map.set, hqi]
      · left; simp [hpast, Map.set, hqi]
    · by_cases hfull : rec0.count ≥ cfg.maxAttempts
      · left; simp [hpast, hfull]
      · by_cases hqi : q = identifier
        · right; right
          exact ⟨rec0, rfl, by omega, by simp [hpast, hfull, Map.set, hqi]⟩
        · left; simp [hpast, hfull, Map.set, hqi]

theorem applyOp_countBounded (cfg : Config) (hmax : 1 ≤ cfg.maxAttempts)
    (s : Map) (op : Op) (hs : CountBounded cfg s) :
    CountBounded cfg (applyOp cfg s op) := by
  cases op with
  | remainingCall identifier now => exact hs
  | resetCall identifier =>
    intro q r hq
    simp only [applyOp, reset, Map.set] at hq
    by_cases hqi : q = identifier
    · simp [hqi] at hq
    · simp [hqi] at hq
      exact hs q r hq
  | allowCall identifier now =>
    intro q r hq
    simp only [applyOp] at hq
    rcases isAllowed_snd_lookup cfg s identifier now q with h | h | ⟨rec0, hrec, hlt, h⟩
    · rw [h] at hq
      exact hs q r hq
    · rw [h] at hq
      cases hq
      simpa using hmax
    · rw [h] at hq
      cases hq
      simp
      omega

theorem runOps_countBounded (cfg : Config) (hmax : 1 ≤ cfg.maxAttempts) :
    ∀ (ops : List Op) (s : Map), CountBounded cfg s →
      CountBounded cfg (runOps cfg s ops)
  | [], s, hs => hs
  | op :: ops, s, hs =>
    runOps_countBounded cfg hmax ops (applyOp cfg s op)
      (applyOp_countBounded cfg hmax s op hs)

/-- C10: over every sequence of `isAllowed`, `getRemainingTime` and `reset`
calls starting from a fresh limiter, every stored record keeps
`count ≤ maxAttempts`; and an `isAllowed` call that returns `false` leaves
the whole attempts map unchanged — the identifier's count and reset time
are untouched by denied calls. -/
theorem rateLimiter_count_invariant (cfg : Config) (hmax : 1 ≤ cfg.maxAttempts) :
    (∀ (ops : List Op) (identifier : String) (r : AttemptRecord),
       runOps cfg Map.empty ops identifier = some r → r.count ≤ cfg.maxAttempts) ∧
    (∀ (s : Map) (identifier : String) (now : Nat),
       (isAllowed cfg s identifier now).1 = false →
       (isAllowed cfg s identifier now).2 = s) := by
  constructor
  · intro ops identifier r hlook
    have hempty : CountBounded cfg Map.empty := by
      intro q r0 h0
      simp [Map.empty] at h0
    exact runOps_countBounded cfg hmax ops Map.empty hempty identifier r hlook
  · intro s identifier now hfalse
    unfold isAllowed at hfalse ⊢
    cases hrec : s identifier with
    | none =>
      rw [hrec] at hfalse
      simp at hfalse
    | some rec0 =>
      rw [hrec] at hfalse
      by_cases hpast : now > rec0.resetTime
      · simp [hpast] at hfalse
      · by_cases hfull : rec0.count ≥ cfg.maxAttempts
        · simp [hpast, hfull]
        · simp [hpast, hfull] at hfalse

/-- C10 (witness): with the authentication configuration, one allowed call
stores a record whose count 1 is within the bound 5; obtained by applying
the invariant theorem to the concrete run `[allowCall "d" 0]`. -/
theorem rateLimiter_count_invariant_witness :
    ({ count := 1, resetTime := 900000 } : AttemptRecord).count ≤ 5 :=
  (rateLimiter_count_invariant ⟨5, 900000⟩ (by decide)).1
    [Op.allowCall "d" 0] "d" ⟨1, 900000⟩ (by decide)

end RateLimiter

namespace SessionManagerModel

/-- C9: `clear()` is idempotent — on any state, including one with no timers
pending, a second `clear()` changes nothing, and after a `clear()` both
timer handles are null (the idle state). -/
theorem clear_idempotent (sm : SessionManager) (env : TimerEnv) :
    SessionManager.clear (SessionManager.clear (sm, env)) =
      SessionManager.clear (sm, env) ∧
    (SessionManager.clear (sm, env)).1.timeoutId = none ∧
    (SessionManager.clear (sm, env)).1.warningTimeoutId = none :=
  ⟨rfl, rfl, rfl⟩

theorem clear_owned_pending (sm : SessionManager) (env : TimerEnv)
    (h : OwnsPending sm env) :
    SessionManager.clear (sm, env) = (⟨none, none⟩, ⟨env.nextId, []⟩) := by
  obtain ⟨ti, wi⟩ := sm
  obtain ⟨n, pend⟩ := env
  have hown : ∀ t ∈ pend, ti = some t.id ∨ wi = some t.id := h
  cases ti with
  | none =>
    cases wi with
    | none =>
      have hnil : pend = [] := by
        rw [List.eq_nil_iff_forall_not_mem]
        intro t ht
        rcases hown t ht with h1 | h1 <;> simp at h1
      simp [SessionManager.clear, hnil]
    | some w =>
      simp only [SessionManager.clear, clearTimeoutId]
      simp
      intro a ha
      rcases hown a ha with h1 | h1
      · simp at h1
      · injection h1 with h1
        exact h1.symm
  | some i =>
    cases wi with
    | none =>
      simp only [SessionManager.clear, clearTimeoutId]
      simp
      intro a ha
      rcases hown a ha with h1 | h1
      · injection h1 with h1
        exact h1.symm
      · simp at h1
    | some w =>
      simp only [SessionManager.clear, clearTimeoutId]
      simp
      intro a ha hnw
      rcases hown a ha with h1 | h1
      · injection h1 with h1
        exact h1.symm
      · injection h1 with h1
        exact absurd h1.symm hnw

/-- C5: calling `reset()` (or `start()`) at time `now` on a state whose
pending timers are all owned by the manager cancels every previously
scheduled firing and leaves exactly two pending timers: the warning at
`now + WARNING_DURATION` (25 minutes) and the hard timeout at
`now + TIMEOUT_DURATION` (30 minutes), with fresh ids held in the handles;
no previously scheduled firing can occur afterwards because the pending set
holds nothing else. -/
theorem reset_reschedules (sm : SessionManager) (env : TimerEnv) (now : Nat)
    (h : OwnsPending sm env) :
    SessionManager.reset (sm, env) now =
      (⟨some (env.nextId + 1), some env.nextId⟩,
       ⟨env.nextId + 2,
        [⟨env.nextId, now + WARNING_DURATION, .warning⟩,
         ⟨env.nextId + 1, now + TIMEOUT_DURATION, .hardTimeout⟩]⟩) ∧
    WARNING_DURATION = 25 * 60 * 1000 ∧ TIMEOUT_DURATION = 30 * 60 * 1000 := by
  refine ⟨?_, rfl, rfl⟩
  unfold SessionManager.reset
  rw [clear_owned_pending sm env h]
  rfl

/-- C5 (witness): resetting a fresh manager at time 7 schedules the warning
at `7 + 25 min` and the hard timeout at `7 + 30 min`. -/
theorem reset_reschedules_witness :
    SessionManager.reset (SessionManager.new, TimerEnv.initial) 7 =
      (⟨some 2, some 1⟩,
       ⟨3, [⟨1, 7 + WARNING_DURATION, .warning⟩,
            ⟨2, 7 + TIMEOUT_DURATION, .hardTimeout⟩]⟩) ∧
    WARNING_DURATION = 25 * 60 * 1000 ∧ TIMEOUT_DURATION = 30 * 60 * 1000 :=
  reset_reschedules SessionManager.new TimerEnv.initial 7
    (by intro t ht; simp [TimerEnv.initial] at ht)

/-- C2 (counterexample): start a fresh manager at time 0, then let its hard
timer (id 2) fire. The `onTimeout` callback is invoked, but the manager is
not back in the idle state: both timer handles are still non-null. -/
theorem hard_timeout_does_not_self_clear :
    (fireTimer (SessionManager.start (SessionManager.new, TimerEnv.initial) 0).1
      (SessionManager.start (SessionManager.new, TimerEnv.initial) 0).2 2).2.2 =
      [FireEvent.timeoutCalled] ∧
    (fireTimer (SessionManager.start (SessionManager.new, TimerEnv.initial) 0).1
      (SessionManager.start (SessionManager.new, TimerEnv.initial) 0).2 2).1.timeoutId =
      some 2 ∧
    (fireTimer (SessionManager.start (SessionManager.new, TimerEnv.initial) 0).1
      (SessionManager.start (SessionManager.new, TimerEnv.initial) 0).2 2).1.warningTimeoutId =
      some 1 := by
  refine ⟨?_, ?_, ?_⟩ <;> decide

/-- C2 (amended): when the hard timer fires it invokes the caller-supplied
`onTimeout` callback and is removed from the pending set as a one-shot
timer, so the hard timeout cannot re-fire — a second fire of the same id is
a no-op producing no callback; but the manager does not self-clear: its
handle fields are left untouched until `clear()` runs (in the application,
the `onTimeout` callback performs the sign-out which calls `clear()`). -/
theorem fireTimer_hard (sm : SessionManager) (env : TimerEnv) (id fireAt : Nat)
    (hfind : env.pending.find? (fun t => t.id == id) =
      some ⟨id, fireAt, .hardTimeout⟩) :
    fireTimer sm env id =
      (sm, ⟨env.nextId, env.pending.filter (fun u => u.id ≠ id)⟩,
       [FireEvent.timeoutCalled]) ∧
    fireTimer sm ⟨env.nextId, env.pending.filter (fun u => u.id ≠ id)⟩ id =
      (sm, ⟨env.nextId, env.pending.filter (fun u => u.id ≠ id)⟩, []) := by
  constructor
  · unfold fireTimer
    rw [hfind]
  · have hnone : (env.pending.filter (fun u => u.id ≠ id)).find?
        (fun t => t.id == id) = none := by
      rw [List.find?_eq_none]
      intro t ht
      rw [List.mem_filter] at ht
      have := ht.2
      simp at this ⊢
      exact this
    unfold fireTimer
    rw [hnone]

/-- C2 (witness): the amended behaviour on the concrete started manager:
firing hard timer id 2 emits the timeout callback and leaves the handles
stale, and firing id 2 again emits nothing. -/
theorem fireTimer_hard_witness :
    fireTimer ⟨some 2, some 1⟩
      ⟨3, [⟨1, WARNING_DURATION, .warning⟩, ⟨2, TIMEOUT_DURATION, .hardTimeout⟩]⟩ 2 =
      (⟨some 2, some 1⟩,
       ⟨3, [⟨1, WARNING_DURATION, .warning⟩]⟩, [FireEvent.timeoutCalled]) ∧
    fireTimer ⟨some 2, some 1⟩ ⟨3, [⟨1, WARNING_DURATION, .warning⟩]⟩ 2 =
      (⟨some 2, some 1⟩, ⟨3, [⟨1, WARNING_DURATION, .warning⟩]⟩, []) := by
  have h := fireTimer_hard ⟨some 2, some 1⟩
    ⟨3, [⟨1, WARNING_DURATION, .warning⟩, ⟨2, TIMEOUT_DURATION, .hardTimeout⟩]⟩
    2 TIMEOUT_DURATION (by decide)
  have hfilter : ([⟨1, WARNING_DURATION, .warning⟩, ⟨2, TIMEOUT_DURATION, .hardTimeout⟩] :
      List PendingTimer).filter (fun u => u.id ≠ 2) =
      [⟨1, WARNING_DURATION, .warning⟩] := by decide
  rw [hfilter] at h
  exact h

end SessionManagerModel

namespace SecurityUtils

set_option maxRecDepth 8192 in
theorem jsHexByte_spec : ∀ b, b < 256 →
    (jsHexByte b).length = 2 ∧ ∀ c ∈ jsHexByte b, isLowerHexDigit c = true := by
  decide

theorem flatten_hex (bytes : List Nat) (hb : ∀ b ∈ bytes, b < 256) :
    ((bytes.map jsHexByte).flatten).length = 2 * bytes.length ∧
    ∀ c ∈ (bytes.map jsHexByte).flatten, isLowerHexDigit c = true := by
  induction bytes with
  | nil =>
    refine ⟨rfl, ?_⟩
    intro c hc
    simp at hc
  | cons b bs ih =>
    have hb0 : b < 256 := hb b (List.mem_cons_self b bs)
    have hbs : ∀ x ∈ bs, x < 256 := fun x hx => hb x (List.mem_cons_of_mem b hx)
    obtain ⟨ihlen, ihhex⟩ := ih hbs
    obtain ⟨hlen2, hhex2⟩ := jsHexByte_spec b hb0
    constructor
    · simp only [List.map_cons, List.flatten_cons, List.length_append, ihlen,
        hlen2, List.length_cons]
      ring
    · intro c hc
      simp only [List.map_cons, List.flatten_cons, List.mem_append] at hc
      rcases hc with hc | hc
      · exact hhex2 c hc
      · exact ihhex c hc

/-- C6: `generateSecureRandom` over `n` drawn bytes (each below 256, as
delivered by a `Uint8Array(n)`) returns a string of exactly `2n` characters,
each a lowercase hexadecimal digit. -/
theorem generateSecureRandom_spec (bytes : List Nat)
    (hb : ∀ b ∈ bytes, b < 256) :
    (generateSecureRandom bytes).length = 2 * bytes.length ∧
    ∀ c ∈ (generateSecureRandom bytes).toList, isLowerHexDigit c = true :=
  flatten_hex bytes hb

/-- C6 (witness): three concrete bytes give a six-character string. -/
theorem generateSecureRandom_spec_witness :
    (generateSecureRandom [0, 255, 16]).length = 2 * 3 :=
  (generateSecureRandom_spec [0, 255, 16] (by decide)).1

end SecurityUtils

namespace Validation

/-- C7: the password strength scorer awards exactly one point per satisfied
criterion — length ≥ 8, a lowercase letter, an uppercase letter, a digit, a
special character — plus one bonus point for length ≥ 12, for a score of at
most 6, and returns exactly one hint per missing criterion (the bonus has no
hint); concretely, `"abc"` scores 1 with four hints and `"Abc123!@#def"`
scores 6 with no hints. -/
theorem getPasswordStrength_spec :
    (∀ p : String,
      (getPasswordStrength p).1 =
        (if p.toList.length ≥ 8 then 1 else 0) +
        (if hasLower p.toList then 1 else 0) +
        (if hasUpper p.toList then 1 else 0) +
        (if hasDigit p.toList then 1 else 0) +
        (if hasSpecial p.toList then 1 else 0) +
        (if p.toList.length ≥ 12 then 1 else 0) ∧
      (getPasswordStrength p).1 ≤ 6 ∧
      (getPasswordStrength p).2 =
        (if p.toList.length ≥ 8 then [] else ["Use at least 8 characters"]) ++
        (if hasLower p.toList then [] else ["Add lowercase letters"]) ++
        (if hasUpper p.toList then [] else ["Add uppercase letters"]) ++
        (if hasDigit p.toList then [] else ["Add numbers"]) ++
        (if hasSpecial p.toList then [] else ["Add special characters"])) ∧
    getPasswordStrength "abc" =
      (1, ["Use at least 8 characters", "Add uppercase letters", "Add numbers",
           "Add special characters"]) ∧
    getPasswordStrength "Abc123!@#def" = (6, []) := by
  refine ⟨?_, by decide, by decide⟩
  intro p
  simp only [getPasswordStrength]
  refine ⟨?_, ?_, ?_⟩ <;> split_ifs <;> simp

end Validation

namespace Validation

theorem get_at_sep (d t : List Char) (c : Char) :
    (d ++ c :: t).get? d.length = some c := by
  rw [List.get?_eq_getElem?, List.getElem?_append_right (le_refl d.length)]
  simp

theorem drop_after_sep (d t : List Char) (c : Char) :
    (d ++ c :: t).drop (d.length + 1) = t := by
  have hsplit : d ++ c :: t = (d ++ [c]) ++ t := by simp
  have hlen : (d ++ [c]).length = d.length + 1 := by simp
  rw [hsplit, ← hlen, List.drop_left]

theorem domainTailMatch_iff (r : List Char) :
    domainTailMatch r = true ↔
      ∃ d t : List Char, r = d ++ '.' :: t ∧ d ≠ [] ∧
        (∀ c ∈ d, isDomainChar c = true) ∧ 2 ≤ t.length ∧
        ∀ c ∈ t, c.isAlpha = true := by
  constructor
  · intro h
    unfold domainTailMatch at h
    rw [List.any_eq_true] at h
    obtain ⟨j, hjr, hj⟩ := h
    rw [List.mem_range] at hjr
    simp only [Bool.and_eq_true, decide_eq_true_eq, beq_iff_eq] at hj
    obtain ⟨⟨⟨⟨hj0, hdom⟩, hdot⟩, hlen⟩, halpha⟩ := hj
    refine ⟨r.take j, r.drop (j + 1), ?_, ?_, List.all_eq_true.mp hdom, hlen, ?_⟩
    · conv_lhs => rw [← List.take_append_drop j r]
      congr 1
      rw [List.drop_eq_getElem_cons hjr]
      obtain ⟨hh, hg⟩ := List.get?_eq_some.mp hdot
      have hg2 : r[j] = '.' := by simpa using hg
      rw [hg2]
    · apply List.length_pos.mp
      rw [List.length_take]
      omega
    · intro c hc
      exact List.all_eq_true.mp halpha c hc
  · rintro ⟨d, t, rfl, hd, hdom, hlen, halpha⟩
    unfold domainTailMatch
    rw [List.any_eq_true]
    refine ⟨d.length, ?_, ?_⟩
    · rw [List.mem_range]
      simp only [List.length_append, List.length_cons]
      omega
    · simp only [Bool.and_eq_true, decide_eq_true_eq, beq_iff_eq]
      refine ⟨⟨⟨⟨List.length_pos.mpr hd, ?_⟩, get_at_sep d t '.'⟩, ?_⟩, ?_⟩
      · rw [List.take_left]
        exact List.all_eq_true.mpr hdom
      · rw [drop_after_sep]
        exact hlen
      · rw [drop_after_sep]
        exact List.all_eq_true.mpr halpha

theorem emailRegexTest_iff (s : List Char) :
    emailRegexTest s = true ↔ EmailRegexSpec s := by
  constructor
  · intro h
    unfold emailRegexTest at h
    rw [List.any_eq_true] at h
    obtain ⟨i, hir, hi⟩ := h
    rw [List.mem_range] at hir
    simp only [Bool.and_eq_true, decide_eq_true_eq, beq_iff_eq] at hi
    obtain ⟨⟨⟨hi0, hloc⟩, hat⟩, htail⟩ := hi
    obtain ⟨d, t, hdec, hd, hdom, hlen, halpha⟩ := (domainTailMatch_iff _).mp htail
    refine ⟨s.take i, d, t, ?_, ?_, List.all_eq_true.mp hloc, hd, hdom, hlen, halpha⟩
    · conv_lhs => rw [← List.take_append_drop i s]
      congr 1
      rw [List.drop_eq_getElem_cons hir]
      rw [← hdec]
      obtain ⟨hh, hg⟩ := List.get?_eq_some.mp hat
      have hg2 : s[i] = '@' := by simpa using hg
      rw [hg2]
    · apply List.length_pos.mp
      rw [List.length_take]
      omega
  · rintro ⟨l, d, t, rfl, hl, hloc, hd, hdom, hlen, halpha⟩
    unfold emailRegexTest
    rw [List.any_eq_true]
    refine ⟨l.length, ?_, ?_⟩
    · rw [List.mem_range]
      simp only [List.length_append, List.length_cons]
      omega
    · simp only [Bool.and_eq_true, decide_eq_true_eq, beq_iff_eq]
      refine ⟨⟨⟨List.length_pos.mpr hl, ?_⟩, get_at_sep l (d ++ '.' :: t) '@'⟩, ?_⟩
      · rw [List.take_left]
        exact List.all_eq_true.mpr hloc
      · rw [drop_after_sep]
        exact (domainTailMatch_iff _).mpr ⟨d, t, rfl, hd, hdom, hlen, halpha⟩

set_option maxRecDepth 100000 in
/-- C8: `isValidEmail` returns `true` exactly when the string matches the
fixed anchored email regex (read declaratively as a
local-part/`@`/domain/`.`/tld decomposition) and its length is at most 254;
concretely `"user@example.com"` is accepted, `"not-an-email"` is rejected,
and `"a@b.c"` followed by 260 `x` characters is rejected by the length cap. -/
theorem isValidEmail_spec :
    (∀ email : String, isValidEmail email = true ↔
      (EmailRegexSpec email.toList ∧ email.length ≤ 254)) ∧
    isValidEmail "user@example.com" = true ∧
    isValidEmail "not-an-email" = false ∧
    isValidEmail ("a@b.c" ++ String.mk (List.replicate 260 'x')) = false := by
  refine ⟨?_, by decide, by decide, ?_⟩
  · intro email
    unfold isValidEmail
    rw [Bool.and_eq_true, decide_eq_true_eq, emailRegexTest_iff]
  · have hlen : ("a@b.c" ++ String.mk (List.replicate 260 'x')).length = 265 := by
      decide
    unfold isValidEmail
    rw [hlen]
    simp

end Validation
